import Mathlib

/-!
Verification development for the ESP32 chunked image-upload server
(`wifi_connect.cpp`).  The program accepts one HTTP request per client,
validates the request line and the `Content-Length` header, and streams a
240x135 RGB565 image body in row-aligned chunks to a TFT display.

The shallow embedding models the client socket as a list of events: either a
byte that is available to read, or a one-millisecond poll tick during which no
data was available.  Time advances only on ticks, matching the 1ms
`delay(1)` polling structure of the source.  The display is modelled as the
list of `pushImage` calls the code performs.
-/

/-- A socket event: a byte arriving, or a 1ms poll where no data is available. -/
inductive Ev
  | byte (b : Nat)
  | tick
deriving DecidableEq, Repr

-- --- Image constants (wifi_connect.cpp lines 13-22) ---

def WIDTH : Nat := 240
def HEIGHT : Nat := 135
def TOTAL_BYTES : Nat := WIDTH * HEIGHT * 2
def BODY_TIMEOUT_MS : Nat := 10000
def CHUNK_ROWS : Nat := 4

/-- The trailing-carriage-return strip performed by `readHeaderLine` on every
return path: if the accumulated line is nonempty and ends in a carriage return (13), the
last character is removed. -/
def stripCR (line : List Nat) : List Nat :=
  if line.getLast? = some 13 then line.dropLast else line

/-- Embedding of `readHeaderLine` (lines 24-44): accumulate bytes until a
line feed (10); on each poll with no data available, break once the elapsed
milliseconds exceed the timeout.  All return paths strip one trailing CR.
An exhausted event stream means no further data ever arrives, so the eventual
timeout returns the accumulated partial line. -/
def readHeaderLineAux (T : Nat) : List Ev → Nat → List Nat → List Nat × List Ev
  | [], _, line => (stripCR line, [])
  | Ev.byte b :: rest, t, line =>
    if b % 256 = 10 then (stripCR line, rest)
    else readHeaderLineAux T rest t (line ++ [b % 256])
  | Ev.tick :: rest, t, line =>
    if t > T then (stripCR line, Ev.tick :: rest)
    else readHeaderLineAux T rest (t + 1) line

/-- `readHeaderLine` with its default 2000ms timeout (line 24). -/
def readHeaderLine (evs : List Ev) (T : Nat := 2000) : List Nat × List Ev :=
  readHeaderLineAux T evs 0 []

/-- Embedding of `readFully` (lines 46-58): keep reading while fewer than
`len` bytes have been received and the elapsed time is under the timeout.
Returns the bytes received (in arrival order) and the remaining stream; the
boolean result in the source corresponds to the returned length equalling `len`. -/
def readFullyAux (len T : Nat) : List Ev → Nat → List Nat → List Nat × List Ev
  | [], _, acc => (acc.reverse, [])
  | Ev.byte b :: rest, t, acc =>
    if acc.length ≥ len ∨ t ≥ T then (acc.reverse, Ev.byte b :: rest)
    else readFullyAux len T rest t (b % 256 :: acc)
  | Ev.tick :: rest, t, acc =>
    if acc.length ≥ len ∨ t ≥ T then (acc.reverse, Ev.tick :: rest)
    else readFullyAux len T rest (t + 1) acc

/-- `readFully` entry point: fresh buffer, elapsed time 0. -/
def readFully (len T : Nat) (evs : List Ev) : List Nat × List Ev :=
  readFullyAux len T evs 0 []

/-- Status line chosen by `sendSimpleResponse` (lines 60-65).  Note that any
code other than 200/400/404 — including 408 — falls into the final `else`
and produces the 500 status line. -/
def statusLineFor (code : Nat) : String :=
  if code = 200 then "HTTP/1.1 200 OK"
  else if code = 400 then "HTTP/1.1 400 Bad Request"
  else if code = 404 then "HTTP/1.1 404 Not Found"
  else "HTTP/1.1 500 Internal Server Error"

/-- Embedding of `sendSimpleResponse` (lines 60-74): the observable response
is the status line together with the body text. -/
def sendSimpleResponse (code : Nat) (body : String) : String × String :=
  (statusLineFor code, body)

-- --- Header parsing helpers (lines 126-139) ---

/-- Byte codes of a string literal, used for the fixed tokens of the source. -/
def strBytes (s : String) : List Nat := s.data.map Char.toNat

def POST_TOKEN : List Nat := strBytes "POST "
def PATH_TOKEN : List Nat := strBytes "/update-image"
def CL_TOKEN : List Nat := strBytes "content-length:"

/-- ASCII `isspace`, the predicate used by Arduino `String::trim`. -/
def isWS (b : Nat) : Bool := decide (b = 32 ∨ (9 ≤ b ∧ b ≤ 13))

/-- Arduino `String::trim`: drop leading and trailing whitespace. -/
def trimWS (l : List Nat) : List Nat :=
  ((l.dropWhile isWS).reverse.dropWhile isWS).reverse

/-- Arduino `String::toLowerCase` on a byte (ASCII tolower). -/
def lowerByte (b : Nat) : Nat := if 65 ≤ b ∧ b ≤ 90 then b + 32 else b

def toLowerL (l : List Nat) : List Nat := l.map lowerByte

/-- `String::indexOf`-style substring test: `requestLine.indexOf(tok) >= 0`. -/
def listContains : List Nat → List Nat → Bool
  | hay, needle =>
    if needle.isPrefixOf hay then true
    else
      match hay with
      | [] => false
      | _ :: t => listContains t needle

/-- Leading decimal digits of `atol`: consume digits, accumulate base 10. -/
def parseDigs : List Nat → Nat → Nat
  | [], acc => acc
  | b :: rest, acc =>
    if 48 ≤ b ∧ b ≤ 57 then parseDigs rest (acc * 10 + (b - 48)) else acc

/-- Arduino `String::toInt` (= `atol`) after trimming: optional sign then a
maximal run of leading digits; anything else yields 0. -/
def strToInt : List Nat → Int
  | 45 :: rest => -(parseDigs rest 0 : Int)
  | 43 :: rest => (parseDigs rest 0 : Int)
  | l => (parseDigs l 0 : Int)

/-- The `(size_t)` cast applied to the `toInt` result (32-bit unsigned). -/
def sizeT (i : Int) : Nat := (i % (2 ^ 32 : Int)).toNat

/-- One iteration of the header loop body (lines 130-138): if the
lower-cased line starts with `content-length:`, parse the text after the
first colon as the new declared length, else keep the current value. -/
def updateCL (h : List Nat) (cl : Nat) : Nat :=
  if CL_TOKEN.isPrefixOf (toLowerL h) then
    sizeT (strToInt (trimWS (h.drop (h.findIdx (fun b => b == 58) + 1))))
  else cl

-- Progress facts about the line reader, needed to justify termination of the
-- header loop (the `while (true)` of the source at line 127).

theorem readHeaderLineAux_rest (T : Nat) :
    ∀ (evs : List Ev) (t : Nat) (line : List Nat),
      (readHeaderLineAux T evs t line).2.length < evs.length ∨
        (readHeaderLineAux T evs t line).2 = evs := by
  intro evs
  induction evs with
  | nil => intro t line; right; simp [readHeaderLineAux]
  | cons e rest ih =>
    intro t line
    cases e with
    | byte b =>
      by_cases hb : b % 256 = 10
      · left; simp [readHeaderLineAux, hb]
      · rcases ih t (line ++ [b % 256]) with h | h
        · left; simp only [readHeaderLineAux, hb, if_false]
          calc (readHeaderLineAux T rest t (line ++ [b % 256])).2.length
              < rest.length := h
            _ < (Ev.byte b :: rest).length := by simp
        · left; simp only [readHeaderLineAux, hb, if_false, h]; simp
    | tick =>
      by_cases ht : t > T
      · right; simp [readHeaderLineAux, ht]
      · rcases ih (t + 1) line with h | h
        · left; simp only [readHeaderLineAux, ht, if_false]
          calc (readHeaderLineAux T rest (t + 1) line).2.length
              < rest.length := h
            _ < (Ev.tick :: rest).length := by simp
        · left; simp only [readHeaderLineAux, ht, if_false, h]; simp

theorem readHeaderLineAux_strip (T : Nat) (evs : List Ev) (t : Nat)
    (line : List Nat) :
    (readHeaderLineAux T evs t line).2.length < evs.length ∨
      (readHeaderLineAux T evs t line).1 = stripCR line := by
  cases evs with
  | nil => right; simp [readHeaderLineAux]
  | cons e rest =>
    cases e with
    | byte b =>
      by_cases hb : b % 256 = 10
      · left; simp [readHeaderLineAux, hb]
      · simp only [readHeaderLineAux, hb, if_false]
        rcases readHeaderLineAux_rest T rest t (line ++ [b % 256]) with h | h
        · left
          calc (readHeaderLineAux T rest t (line ++ [b % 256])).2.length
              < rest.length := h
            _ < (Ev.byte b :: rest).length := by simp
        · left; rw [h]; simp
    | tick =>
      by_cases ht : t > T
      · right; simp [readHeaderLineAux, ht]
      · simp only [readHeaderLineAux, ht, if_false]
        rcases readHeaderLineAux_rest T rest (t + 1) line with h | h
        · left
          calc (readHeaderLineAux T rest (t + 1) line).2.length
              < rest.length := h
            _ < (Ev.tick :: rest).length := by simp
        · left; rw [h]; simp

theorem readHeaderLine_progress (evs : List Ev) (T : Nat)
    (h : (readHeaderLine evs T).1 ≠ []) :
    (readHeaderLine evs T).2.length < evs.length := by
  rcases readHeaderLineAux_strip T evs 0 [] with hlt | heq
  · exact hlt
  · exact absurd (by simpa [stripCR] using heq : (readHeaderLine evs T).1 = []) h

/-- Embedding of the header loop (lines 126-139): read header lines until an
empty one; each `Content-Length` line (case-insensitive) overwrites the
declared length.  Returns the final declared length and the remaining
stream. -/
def readHeaders : List Ev → Nat → Nat × List Ev
  | evs, cl =>
    let p := readHeaderLine evs
    if h : p.1 = [] then (cl, p.2)
    else readHeaders p.2 (updateCL p.1 cl)
termination_by evs _ => evs.length
decreasing_by exact readHeaderLine_progress evs 2000 h

-- --- Chunked body transfer (lines 149-199) ---

/-- Little-endian 16-bit assembly of consecutive byte pairs (lines 186-192):
`wordBuf[i] = (uint16_t)lo | ((uint16_t)hi << 8)`. -/
def toWords : List Nat → List Nat
  | lo :: hi :: rest => (lo ||| (hi <<< 8)) :: toWords rest
  | _ => []

/-- One `tft.pushImage(x, y, w, h, pixels)` call (line 195). -/
structure Push where
  x : Nat
  y : Nat
  w : Nat
  h : Nat
  pixels : List Nat
deriving DecidableEq, Repr

/-- Result of the chunk loop: the pushes performed, the remaining stream,
whether the loop aborted on a chunk timeout, and the total body bytes
consumed from the connection (including the bytes of a partial chunk). -/
structure TransferResult where
  pushes : List Push
  rest : List Ev
  error : Bool
  bytesRead : Nat
deriving Repr

/-- Embedding of the chunk loop (lines 174-196): for `y = 0, 4, 8, ...` below
`HEIGHT`, read `WIDTH * rowsThis * 2` bytes with the 10s per-chunk deadline;
on success convert to pixels and push at row `y`; on a short read abort with
`error = true` and push nothing for that chunk. -/
def transferLoop : List Ev → Nat → List Push → Nat → TransferResult
  | evs, y, pushes, bytes =>
    if y < HEIGHT then
      let rowsThis := min CHUNK_ROWS (HEIGHT - y)
      let bytesNeeded := WIDTH * rowsThis * 2
      let r := readFully bytesNeeded BODY_TIMEOUT_MS evs
      if r.1.length = bytesNeeded then
        transferLoop r.2 (y + CHUNK_ROWS)
          (pushes ++ [⟨0, y, WIDTH, rowsThis, toWords r.1⟩]) (bytes + r.1.length)
      else ⟨pushes, r.2, true, bytes + r.1.length⟩
    else ⟨pushes, evs, false, bytes⟩
termination_by _ y _ _ => HEIGHT - y
decreasing_by simp only [HEIGHT, CHUNK_ROWS] at *; omega

-- --- The request cycle (`loop`, lines 99-206) ---

/-- One client connection: its byte/tick stream and whether each of the two
`malloc` calls would succeed. -/
structure ClientInput where
  events : List Ev
  byteBufOk : Bool
  wordBufOk : Bool

/-- Observable outcome of one request cycle: the response written (none when
the connection is dropped without a response), the `pushImage` calls made,
whether the header loop ran, how many body bytes were consumed, whether the
connection was closed, and whether each allocated buffer was freed. -/
structure Outcome where
  response : Option (String × String)
  pushes : List Push
  headersParsed : Bool
  bodyBytesRead : Nat
  closed : Bool
  byteBufFreed : Bool
  wordBufFreed : Bool
deriving Repr

/-- Embedding of `loop` (lines 99-206) for one connected client: read and
trim the request line; an empty line drops the connection silently; a line
not matching `POST ` + `/update-image` yields 404; then headers are parsed
and the declared length must equal `TOTAL_BYTES` (else 400, reading no body);
then the two buffers must allocate (else 500, reading no body); finally the
chunk loop runs and yields 200 on success or the timeout response on abort.
Note `sendSimpleResponse 408 _` produces the 500 status line. -/
def handle (inp : ClientInput) : Outcome :=
  let p := readHeaderLine inp.events
  let requestLine := trimWS p.1
  if requestLine.length = 0 then
    ⟨none, [], false, 0, true, false, false⟩
  else if !(POST_TOKEN.isPrefixOf requestLine && listContains requestLine PATH_TOKEN) then
    ⟨some (sendSimpleResponse 404 "Not found"), [], false, 0, true, false, false⟩
  else
    let q := readHeaders p.2 0
    if q.1 ≠ TOTAL_BYTES then
      ⟨some (sendSimpleResponse 400
          ("Expected " ++ toString TOTAL_BYTES ++ " bytes, got " ++ toString q.1)),
        [], true, 0, true, false, false⟩
    else if !inp.byteBufOk then
      ⟨some (sendSimpleResponse 500 "OOM byteBuf"), [], true, 0, true, false, false⟩
    else if !inp.wordBufOk then
      ⟨some (sendSimpleResponse 500 "OOM wordBuf"), [], true, 0, true, true, false⟩
    else
      let r := transferLoop q.2 0 [] 0
      ⟨some (if r.error then sendSimpleResponse 408 "Timeout receiving body"
             else sendSimpleResponse 200 "OK"),
        r.pushes, true, r.bytesRead, true, true, true⟩

-- --- Derived characterizations used in the statements ---

/-- The pushes a run of the chunk loop performs on a body prefix: one push per
chunk whose bytes are all present, stopping at the first chunk that is not
fully covered by the body.  Proven below to be exactly what `transferLoop`
pushes. -/
def chunksFrom : Nat → List Nat → List Push
  | y, body =>
    if y < HEIGHT then
      let rows := min CHUNK_ROWS (HEIGHT - y)
      let need := WIDTH * rows * 2
      if need ≤ body.length then
        ⟨0, y, WIDTH, rows, toWords (body.take need)⟩ ::
          chunksFrom (y + CHUNK_ROWS) (body.drop need)
      else []
    else []
termination_by y _ => HEIGHT - y
decreasing_by simp only [HEIGHT, CHUNK_ROWS] at *; omega

/-- Number of rows fully received and pushed before the loop stops, as a
function of the starting row and the number of available body bytes. -/
def rowsDone : Nat → Nat → Nat
  | y, len =>
    if y < HEIGHT then
      let rows := min CHUNK_ROWS (HEIGHT - y)
      let need := WIDTH * rows * 2
      if need ≤ len then rows + rowsDone (y + CHUNK_ROWS) (len - need) else 0
    else 0
termination_by y _ => HEIGHT - y
decreasing_by simp only [HEIGHT, CHUNK_ROWS] at *; omega

/-- The geometry (row origin, row count, wire bytes) of each chunk pushed by
a fully supplied run starting at row `y`, with an explicit chunk-count fuel
so that concrete instances evaluate. -/
def geomList : Nat → Nat → List (Nat × Nat × Nat)
  | 0, _ => []
  | fuel + 1, y =>
    if y < HEIGHT then
      (y, min CHUNK_ROWS (HEIGHT - y), WIDTH * min CHUNK_ROWS (HEIGHT - y) * 2) ::
        geomList fuel (y + CHUNK_ROWS)
    else []

/-- The rows a single `pushImage` call draws: for each `j < h` the row at
screen index `y + j`, horizontal origin `x`, width `w`, with the `j`-th slice
of the pixel buffer. -/
def rowsOf (p : Push) : List (Nat × Nat × Nat × List Nat) :=
  (List.range p.h).map (fun j => (p.x, p.y + j, p.w, (p.pixels.drop (j * p.w)).take p.w))

/-- Pixel `i` of the body: `byteBuf[2i] | (byteBuf[2i+1] << 8)`, reading
little-endian 16-bit values from the raw byte stream. -/
def bodyPixel (body : List Nat) (i : Nat) : Nat :=
  body.getD (2 * i) 0 ||| ((body.getD (2 * i + 1) 0) <<< 8)

/-- Row `r` of the body interpreted as row-major little-endian pixels. -/
def bodyRow (body : List Nat) (r : Nat) : List Nat :=
  (List.range WIDTH).map (fun xcol => bodyPixel body (WIDTH * r + xcol))

/-- A text line on the wire, terminated by CRLF. -/
def lineEv (l : List Nat) : List Ev := l.map Ev.byte ++ [Ev.byte 13, Ev.byte 10]

/-- A full upload as it appears on the socket: request line, header lines, a
blank line, the raw body bytes, then any further events. -/
def encodeRequest (reqline : List Nat) (hs : List (List Nat)) (body : List Nat)
    (tail : List Ev) : List Ev :=
  lineEv reqline ++ (hs.map lineEv).flatten ++ lineEv [] ++ body.map Ev.byte ++ tail

/-- Bytes of a wire text line: below 256, and free of the LF delimiter. -/
def LineOK (l : List Nat) : Prop := ∀ b ∈ l, b < 256 ∧ b ≠ 10

/-- All header lines are well formed and nonempty. -/
def HeadersOK (hs : List (List Nat)) : Prop := ∀ h ∈ hs, LineOK h ∧ h ≠ []

/-- The declared length that the header loop extracts from a header block. -/
def contentLengthOf (hs : List (List Nat)) : Nat :=
  hs.foldl (fun c h => updateCL h c) 0

/-- Substring test on response strings. -/
def strHas (s sub : String) : Bool := listContains (strBytes s) (strBytes sub)

-- --- Line reader lemmas ---

theorem stripCR_concat13 (l : List Nat) : stripCR (l ++ [13]) = l := by
  simp [stripCR, List.getLast?_concat, List.dropLast_concat]

theorem stripCR_nil : stripCR [] = [] := by simp [stripCR]

theorem stripCR_no13 (l : List Nat) (h : l.getLast? ≠ some 13) : stripCR l = l := by
  simp [stripCR, h]

theorem readHeaderLineAux_bytes (T : Nat) :
    ∀ (l : List Nat) (tail : List Ev) (t : Nat) (acc : List Nat),
      (∀ b ∈ l, b < 256 ∧ b ≠ 10) →
      readHeaderLineAux T (l.map Ev.byte ++ tail) t acc =
        readHeaderLineAux T tail t (acc ++ l) := by
  intro l
  induction l with
  | nil => intro tail t acc _; simp
  | cons b l ih =>
    intro tail t acc hl
    obtain ⟨hb256, hb10⟩ := hl b (List.mem_cons_self b l)
    have hmod : b % 256 = b := Nat.mod_eq_of_lt hb256
    have hne : ¬(b % 256 = 10) := by rw [hmod]; exact hb10
    simp only [List.map_cons, List.cons_append, readHeaderLineAux, hne, if_false,
      List.append_eq]
    rw [ih tail t (acc ++ [b % 256]) (fun x hx => hl x (List.mem_cons_of_mem b hx))]
    simp [hmod]

theorem readHeaderLine_lineEv (l : List Nat) (rest : List Ev) (T : Nat)
    (hl : ∀ b ∈ l, b < 256 ∧ b ≠ 10) :
    readHeaderLineAux T (lineEv l ++ rest) 0 [] = (l, rest) := by
  have h13 : ∀ b ∈ l ++ [13], b < 256 ∧ b ≠ 10 := by
    intro b hb
    rcases List.mem_append.mp hb with h | h
    · exact hl b h
    · simp only [List.mem_singleton] at h; subst h; exact ⟨by norm_num, by norm_num⟩
  have : lineEv l ++ rest = (l ++ [13]).map Ev.byte ++ (Ev.byte 10 :: rest) := by
    simp [lineEv]
  rw [this, readHeaderLineAux_bytes T (l ++ [13]) (Ev.byte 10 :: rest) 0 [] h13]
  simp only [readHeaderLineAux, List.nil_append]
  rw [if_pos (by norm_num)]
  rw [stripCR_concat13]

theorem readHeaderLine_exhaust (l : List Nat) (T : Nat)
    (hl : ∀ b ∈ l, b < 256 ∧ b ≠ 10) :
    readHeaderLineAux T (l.map Ev.byte) 0 [] = (stripCR l, []) := by
  have := readHeaderLineAux_bytes T l [] 0 [] hl
  simp only [List.append_nil] at this
  rw [this]
  simp [readHeaderLineAux]

theorem readHeaderLineAux_ticks (T : Nat) :
    ∀ (k t : Nat) (acc : List Nat), t + k ≤ T + 1 →
      readHeaderLineAux T (List.replicate k Ev.tick) t acc = (stripCR acc, []) := by
  intro k
  induction k with
  | zero => intro t acc _; simp [readHeaderLineAux]
  | succ k ih =>
    intro t acc h
    have hT : ¬(t > T) := by omega
    simp only [List.replicate_succ, readHeaderLineAux, hT, if_false]
    exact ih (t + 1) acc (by omega)

-- --- Header loop lemma ---

theorem readHeaders_blank (rest : List Ev) (cl : Nat) :
    readHeaders (lineEv [] ++ rest) cl = (cl, rest) := by
  rw [readHeaders]
  have h : readHeaderLine (lineEv [] ++ rest) = ([], rest) :=
    readHeaderLine_lineEv [] rest 2000 (by intro b hb; simp at hb)
  simp [readHeaderLine] at h
  simp [readHeaderLine, h]

theorem readHeaders_encoded :
    ∀ (hs : List (List Nat)) (rest : List Ev) (cl : Nat), HeadersOK hs →
      readHeaders ((hs.map lineEv).flatten ++ lineEv [] ++ rest) cl =
        (hs.foldl (fun c h => updateCL h c) cl, rest) := by
  intro hs
  induction hs with
  | nil =>
    intro rest cl _
    simpa using readHeaders_blank rest cl
  | cons h hs ih =>
    intro rest cl hok
    obtain ⟨hlok, hne⟩ := hok h (List.mem_cons_self h hs)
    rw [readHeaders]
    have hline : readHeaderLine
        (lineEv h ++ ((hs.map lineEv).flatten ++ lineEv [] ++ rest)) =
        (h, (hs.map lineEv).flatten ++ lineEv [] ++ rest) := by
      exact readHeaderLine_lineEv h _ 2000 hlok
    have harr : (List.map lineEv (h :: hs)).flatten ++ lineEv [] ++ rest =
        lineEv h ++ ((hs.map lineEv).flatten ++ lineEv [] ++ rest) := by
      simp [List.map_cons, List.flatten_cons]
    rw [harr, hline]
    simp only [hne, dite_false]
    rw [ih rest (updateCL h cl) (fun x hx => hok x (List.mem_cons_of_mem h hx))]
    simp [List.foldl_cons]

-- --- readFully lemmas ---

theorem readFullyAux_guard (len T : Nat) (evs : List Ev) (t : Nat)
    (acc : List Nat) (h : acc.length ≥ len ∨ t ≥ T) :
    readFullyAux len T evs t acc = (acc.reverse, evs) := by
  cases evs with
  | nil => simp [readFullyAux]
  | cons e rest => cases e <;> simp [readFullyAux, h]

theorem readFullyAux_bytes (len T : Nat) :
    ∀ (bs : List Nat) (tail : List Ev) (t : Nat) (acc : List Nat),
      t < T → acc.length + bs.length ≤ len →
      readFullyAux len T (bs.map Ev.byte ++ tail) t acc =
        readFullyAux len T tail t ((bs.map (· % 256)).reverse ++ acc) := by
  intro bs
  induction bs with
  | nil => intro tail t acc _ _; simp
  | cons b bs ih =>
    intro tail t acc ht hlen
    have hguard : ¬(acc.length ≥ len ∨ t ≥ T) := by
      simp only [List.length_cons] at hlen
      push_neg
      constructor
      · omega
      · omega
    simp only [List.map_cons, List.cons_append, readFullyAux, hguard, if_false,
      List.append_eq]
    rw [ih tail t (b % 256 :: acc) ht (by simp at hlen ⊢; omega)]
    simp

theorem map_mod_eq (bs : List Nat) (hb : ∀ b ∈ bs, b < 256) :
    bs.map (· % 256) = bs := by
  induction bs with
  | nil => simp
  | cons a l ih =>
    simp [Nat.mod_eq_of_lt (hb a (List.mem_cons_self a l)),
      ih (fun x hx => hb x (List.mem_cons_of_mem a hx))]

theorem readFully_exact (bs : List Nat) (tail : List Ev) (len T : Nat)
    (hb : ∀ b ∈ bs, b < 256) (hlen : bs.length = len) (hT : 0 < T) :
    readFully len T (bs.map Ev.byte ++ tail) = (bs, tail) := by
  unfold readFully
  rw [readFullyAux_bytes len T bs tail 0 [] hT (by simp [hlen])]
  rw [readFullyAux_guard len T tail 0 _ (by simp [hlen])]
  simp [map_mod_eq bs hb]

theorem readFully_short (bs : List Nat) (len T : Nat)
    (hb : ∀ b ∈ bs, b < 256) (hlen : bs.length < len) (hT : 0 < T) :
    readFully len T (bs.map Ev.byte) = (bs, []) := by
  unfold readFully
  have h0 : bs.map Ev.byte = bs.map Ev.byte ++ [] := by simp
  rw [h0, readFullyAux_bytes len T bs [] 0 [] hT (by simp; omega)]
  simp [readFullyAux, map_mod_eq bs hb]

-- --- Transfer loop characterization ---

theorem chunksFrom_step (y : Nat) (body : List Nat) (hy : y < HEIGHT)
    (hne : WIDTH * (min CHUNK_ROWS (HEIGHT - y)) * 2 ≤ body.length) :
    chunksFrom y body =
      ⟨0, y, WIDTH, min CHUNK_ROWS (HEIGHT - y),
          toWords (body.take (WIDTH * (min CHUNK_ROWS (HEIGHT - y)) * 2))⟩ ::
        chunksFrom (y + CHUNK_ROWS)
          (body.drop (WIDTH * (min CHUNK_ROWS (HEIGHT - y)) * 2)) := by
  rw [chunksFrom]
  simp only [if_pos hy, if_pos hne]

theorem chunksFrom_short (y : Nat) (body : List Nat)
    (hne : ¬(WIDTH * (min CHUNK_ROWS (HEIGHT - y)) * 2 ≤ body.length)) :
    chunksFrom y body = [] := by
  rw [chunksFrom]
  by_cases hy : y < HEIGHT
  · simp only [if_pos hy, if_neg hne]
  · simp only [if_neg hy]

theorem chunksFrom_stop (y : Nat) (body : List Nat) (hy : ¬(y < HEIGHT)) :
    chunksFrom y body = [] := by
  rw [chunksFrom]
  simp only [if_neg hy]

theorem transfer_complete :
    ∀ (n y : Nat) (body : List Nat) (tail : List Ev) (pushes : List Push) (bytes : Nat),
      HEIGHT - y = n → (∀ b ∈ body, b < 256) →
      body.length = WIDTH * 2 * (HEIGHT - y) →
      transferLoop (body.map Ev.byte ++ tail) y pushes bytes =
        ⟨pushes ++ chunksFrom y body, tail, false, bytes + body.length⟩ := by
  intro n
  induction n using Nat.strong_induction_on with
  | _ n ih =>
    intro y body tail pushes bytes hn hb hlen
    by_cases hy : y < HEIGHT
    · have hneedle : WIDTH * (min CHUNK_ROWS (HEIGHT - y)) * 2 ≤ body.length := by
        rw [hlen]; simp only [WIDTH, HEIGHT, CHUNK_ROWS] at *; omega
      have htake : (body.take (WIDTH * (min CHUNK_ROWS (HEIGHT - y)) * 2)).length =
          WIDTH * (min CHUNK_ROWS (HEIGHT - y)) * 2 := by
        rw [List.length_take]; omega
      have hsplit : body.map Ev.byte ++ tail =
          (body.take (WIDTH * (min CHUNK_ROWS (HEIGHT - y)) * 2)).map Ev.byte ++
            ((body.drop (WIDTH * (min CHUNK_ROWS (HEIGHT - y)) * 2)).map Ev.byte ++ tail) := by
        rw [← List.append_assoc, ← List.map_append, List.take_append_drop]
      have hread := readFully_exact
        (body.take (WIDTH * (min CHUNK_ROWS (HEIGHT - y)) * 2))
        ((body.drop (WIDTH * (min CHUNK_ROWS (HEIGHT - y)) * 2)).map Ev.byte ++ tail)
        (WIDTH * (min CHUNK_ROWS (HEIGHT - y)) * 2) BODY_TIMEOUT_MS
        (fun b hb2 => hb b (List.take_subset _ body hb2)) htake
        (by simp [BODY_TIMEOUT_MS])
      rw [transferLoop, if_pos hy]
      simp only
      rw [hsplit, hread]
      simp only [htake, eq_self_iff_true, if_true]
      have hrec := ih (HEIGHT - (y + CHUNK_ROWS))
        (by simp only [HEIGHT, CHUNK_ROWS] at *; omega)
        (y + CHUNK_ROWS)
        (body.drop (WIDTH * (min CHUNK_ROWS (HEIGHT - y)) * 2)) tail
        (pushes ++ [⟨0, y, WIDTH, min CHUNK_ROWS (HEIGHT - y),
          toWords (body.take (WIDTH * (min CHUNK_ROWS (HEIGHT - y)) * 2))⟩])
        (bytes + WIDTH * (min CHUNK_ROWS (HEIGHT - y)) * 2)
        rfl
        (fun b hb2 => hb b (List.drop_subset _ body hb2))
        (by rw [List.length_drop, hlen]; simp only [WIDTH, HEIGHT, CHUNK_ROWS] at *; omega)
      rw [hrec, chunksFrom_step y body hy hneedle]
      simp only [TransferResult.mk.injEq]
      refine ⟨?_, trivial, trivial, ?_⟩
      · simp [List.append_assoc]
      · rw [List.length_drop]; omega
    · have h0 : HEIGHT - y = 0 := Nat.sub_eq_zero_of_le (le_of_not_lt hy)
      rw [h0, Nat.mul_zero] at hlen
      have hbody : body = [] := List.length_eq_zero.mp hlen
      subst hbody
      rw [transferLoop, if_neg hy, chunksFrom_stop y [] hy]
      simp

theorem transfer_stall :
    ∀ (n y : Nat) (body : List Nat) (pushes : List Push) (bytes : Nat),
      HEIGHT - y = n → (∀ b ∈ body, b < 256) →
      body.length < WIDTH * 2 * (HEIGHT - y) →
      transferLoop (body.map Ev.byte) y pushes bytes =
        ⟨pushes ++ chunksFrom y body, [], true, bytes + body.length⟩ := by
  intro n
  induction n using Nat.strong_induction_on with
  | _ n ih =>
    intro y body pushes bytes hn hb hlen
    have hy : y < HEIGHT := by
      by_contra hyn
      have h0 : HEIGHT - y = 0 := Nat.sub_eq_zero_of_le (le_of_not_lt hyn)
      rw [h0, Nat.mul_zero] at hlen
      omega
    by_cases hneedle : WIDTH * (min CHUNK_ROWS (HEIGHT - y)) * 2 ≤ body.length
    · have hrows4 : min CHUNK_ROWS (HEIGHT - y) = CHUNK_ROWS := by
        simp only [WIDTH, HEIGHT, CHUNK_ROWS] at *; omega
      have htake : (body.take (WIDTH * (min CHUNK_ROWS (HEIGHT - y)) * 2)).length =
          WIDTH * (min CHUNK_ROWS (HEIGHT - y)) * 2 := by
        rw [List.length_take]; omega
      have hsplit : body.map Ev.byte =
          (body.take (WIDTH * (min CHUNK_ROWS (HEIGHT - y)) * 2)).map Ev.byte ++
            (body.drop (WIDTH * (min CHUNK_ROWS (HEIGHT - y)) * 2)).map Ev.byte := by
        rw [← List.map_append, List.take_append_drop]
      have hread := readFully_exact
        (body.take (WIDTH * (min CHUNK_ROWS (HEIGHT - y)) * 2))
        ((body.drop (WIDTH * (min CHUNK_ROWS (HEIGHT - y)) * 2)).map Ev.byte)
        (WIDTH * (min CHUNK_ROWS (HEIGHT - y)) * 2) BODY_TIMEOUT_MS
        (fun b hb2 => hb b (List.take_subset _ body hb2)) htake
        (by simp [BODY_TIMEOUT_MS])
      rw [transferLoop, if_pos hy]
      simp only
      rw [hsplit, hread]
      simp only [htake, eq_self_iff_true, if_true]
      have hrec := ih (HEIGHT - (y + CHUNK_ROWS))
        (by simp only [HEIGHT, CHUNK_ROWS] at *; omega)
        (y + CHUNK_ROWS)
        (body.drop (WIDTH * (min CHUNK_ROWS (HEIGHT - y)) * 2))
        (pushes ++ [⟨0, y, WIDTH, min CHUNK_ROWS (HEIGHT - y),
          toWords (body.take (WIDTH * (min CHUNK_ROWS (HEIGHT - y)) * 2))⟩])
        (bytes + WIDTH * (min CHUNK_ROWS (HEIGHT - y)) * 2)
        rfl
        (fun b hb2 => hb b (List.drop_subset _ body hb2))
        (by rw [List.length_drop]; simp only [WIDTH, HEIGHT, CHUNK_ROWS] at *; omega)
      rw [hrec, chunksFrom_step y body hy hneedle]
      simp only [TransferResult.mk.injEq]
      refine ⟨?_, trivial, trivial, ?_⟩
      · simp [List.append_assoc]
      · rw [List.length_drop]; omega
    · have hshort := readFully_short body
        (WIDTH * (min CHUNK_ROWS (HEIGHT - y)) * 2) BODY_TIMEOUT_MS hb
        (by omega) (by simp [BODY_TIMEOUT_MS])
      rw [transferLoop, if_pos hy]
      simp only
      rw [hshort]
      have hne2 : ¬(body.length = WIDTH * (min CHUNK_ROWS (HEIGHT - y)) * 2) := by omega
      simp only [hne2, if_false]
      rw [chunksFrom_short y body hneedle]
      simp

-- --- Whole-request runs ---

theorem post_prefix_ne_nil (l : List Nat)
    (h : POST_TOKEN.isPrefixOf l = true) : ¬(l.length = 0) := by
  intro h0
  rw [List.length_eq_zero] at h0
  subst h0
  revert h
  decide

theorem readHeaderLine_encodeRequest (reqline : List Nat) (hs : List (List Nat))
    (body : List Nat) (tail : List Ev) (hl : LineOK reqline) :
    readHeaderLine (encodeRequest reqline hs body tail) =
      (reqline, (hs.map lineEv).flatten ++ (lineEv [] ++ (body.map Ev.byte ++ tail))) := by
  have e1 : encodeRequest reqline hs body tail =
      lineEv reqline ++
        ((hs.map lineEv).flatten ++ (lineEv [] ++ (body.map Ev.byte ++ tail))) := by
    simp [encodeRequest, List.append_assoc]
  rw [e1]
  exact readHeaderLine_lineEv reqline _ 2000 hl

theorem run_ok (reqline : List Nat) (hs : List (List Nat)) (body : List Nat)
    (tail : List Ev)
    (hl : LineOK reqline)
    (hpost : POST_TOKEN.isPrefixOf (trimWS reqline) = true)
    (hpath : listContains (trimWS reqline) PATH_TOKEN = true)
    (hhs : HeadersOK hs)
    (hcl : contentLengthOf hs = TOTAL_BYTES)
    (hblen : body.length = TOTAL_BYTES)
    (hbb : ∀ b ∈ body, b < 256) :
    handle ⟨encodeRequest reqline hs body tail, true, true⟩ =
      ⟨some (sendSimpleResponse 200 "OK"), chunksFrom 0 body, true,
        body.length, true, true, true⟩ := by
  unfold handle
  simp only [readHeaderLine_encodeRequest reqline hs body tail hl]
  rw [if_neg (post_prefix_ne_nil _ hpost)]
  simp only [hpost, hpath, Bool.and_self, Bool.not_true, Bool.false_eq_true,
    if_false]
  have hhd := readHeaders_encoded hs (body.map Ev.byte ++ tail) 0 hhs
  rw [List.append_assoc] at hhd
  rw [hhd]
  have hclv : hs.foldl (fun c h => updateCL h c) 0 = TOTAL_BYTES := hcl
  simp only [hclv, ne_eq, not_true_eq_false, if_false, Bool.not_true]
  have htr := transfer_complete HEIGHT 0 body tail [] 0 rfl hbb
    (by rw [hblen]; simp [TOTAL_BYTES, WIDTH, HEIGHT])
  rw [htr]
  simp

theorem run_stall (reqline : List Nat) (hs : List (List Nat)) (body : List Nat)
    (hl : LineOK reqline)
    (hpost : POST_TOKEN.isPrefixOf (trimWS reqline) = true)
    (hpath : listContains (trimWS reqline) PATH_TOKEN = true)
    (hhs : HeadersOK hs)
    (hcl : contentLengthOf hs = TOTAL_BYTES)
    (hblen : body.length < TOTAL_BYTES)
    (hbb : ∀ b ∈ body, b < 256) :
    handle ⟨encodeRequest reqline hs body [], true, true⟩ =
      ⟨some (sendSimpleResponse 408 "Timeout receiving body"), chunksFrom 0 body,
        true, body.length, true, true, true⟩ := by
  unfold handle
  simp only [readHeaderLine_encodeRequest reqline hs body [] hl]
  rw [if_neg (post_prefix_ne_nil _ hpost)]
  simp only [hpost, hpath, Bool.and_self, Bool.not_true, Bool.false_eq_true,
    if_false]
  have hhd := readHeaders_encoded hs (body.map Ev.byte ++ []) 0 hhs
  rw [List.append_assoc] at hhd
  rw [hhd]
  have hclv : hs.foldl (fun c h => updateCL h c) 0 = TOTAL_BYTES := hcl
  simp only [hclv, ne_eq, not_true_eq_false, if_false, Bool.not_true]
  have htr := transfer_stall HEIGHT 0 body [] 0 rfl hbb
    (by simp only [TOTAL_BYTES, WIDTH, HEIGHT] at *; omega)
  rw [List.append_nil, htr]
  simp

theorem run_empty_line (reqline : List Nat) (rest : List Ev) (bb wb : Bool)
    (hl : LineOK reqline) (ht : trimWS reqline = []) :
    handle ⟨lineEv reqline ++ rest, bb, wb⟩ =
      ⟨none, [], false, 0, true, false, false⟩ := by
  unfold handle
  have hline : readHeaderLine (lineEv reqline ++ rest) = (reqline, rest) :=
    readHeaderLine_lineEv reqline rest 2000 hl
  simp only [hline, ht]
  simp

theorem run_not_found (reqline : List Nat) (rest : List Ev) (bb wb : Bool)
    (hl : LineOK reqline) (ht : trimWS reqline ≠ [])
    (hno : ¬(POST_TOKEN.isPrefixOf (trimWS reqline) = true ∧
             listContains (trimWS reqline) PATH_TOKEN = true)) :
    handle ⟨lineEv reqline ++ rest, bb, wb⟩ =
      ⟨some (sendSimpleResponse 404 "Not found"), [], false, 0, true, false, false⟩ := by
  unfold handle
  have hline : readHeaderLine (lineEv reqline ++ rest) = (reqline, rest) :=
    readHeaderLine_lineEv reqline rest 2000 hl
  simp only [hline]
  rw [if_neg (by simpa [List.length_eq_zero] using ht)]
  have hfalse : (POST_TOKEN.isPrefixOf (trimWS reqline) &&
      listContains (trimWS reqline) PATH_TOKEN) = false := by
    cases h1 : POST_TOKEN.isPrefixOf (trimWS reqline) with
    | false => simp [h1]
    | true =>
      cases h2 : listContains (trimWS reqline) PATH_TOKEN with
      | false => simp [h1, h2]
      | true => exact absurd ⟨h1, h2⟩ hno
  simp [hfalse]

theorem run_bad_length (reqline : List Nat) (hs : List (List Nat)) (rest : List Ev)
    (bb wb : Bool)
    (hl : LineOK reqline)
    (hpost : POST_TOKEN.isPrefixOf (trimWS reqline) = true)
    (hpath : listContains (trimWS reqline) PATH_TOKEN = true)
    (hhs : HeadersOK hs)
    (hne : contentLengthOf hs ≠ TOTAL_BYTES) :
    handle ⟨lineEv reqline ++ ((hs.map lineEv).flatten ++ (lineEv [] ++ rest)), bb, wb⟩ =
      ⟨some (sendSimpleResponse 400
          ("Expected " ++ toString TOTAL_BYTES ++ " bytes, got " ++
            toString (contentLengthOf hs))),
        [], true, 0, true, false, false⟩ := by
  unfold handle
  have hline : readHeaderLine
      (lineEv reqline ++ ((hs.map lineEv).flatten ++ (lineEv [] ++ rest))) =
      (reqline, (hs.map lineEv).flatten ++ (lineEv [] ++ rest)) :=
    readHeaderLine_lineEv reqline _ 2000 hl
  simp only [hline]
  rw [if_neg (post_prefix_ne_nil _ hpost)]
  simp only [hpost, hpath, Bool.and_self, Bool.not_true, Bool.false_eq_true,
    if_false]
  have hhd := readHeaders_encoded hs rest 0 hhs
  rw [List.append_assoc] at hhd
  rw [hhd]
  have hnev : hs.foldl (fun c h => updateCL h c) 0 ≠ TOTAL_BYTES := hne
  simp only [ne_eq, hnev, not_false_eq_true, if_true]
  rfl

theorem run_oom (reqline : List Nat) (hs : List (List Nat)) (rest : List Ev)
    (hl : LineOK reqline)
    (hpost : POST_TOKEN.isPrefixOf (trimWS reqline) = true)
    (hpath : listContains (trimWS reqline) PATH_TOKEN = true)
    (hhs : HeadersOK hs)
    (hcl : contentLengthOf hs = TOTAL_BYTES) :
    (∀ wb : Bool,
      handle ⟨lineEv reqline ++ ((hs.map lineEv).flatten ++ (lineEv [] ++ rest)), false, wb⟩ =
        ⟨some (sendSimpleResponse 500 "OOM byteBuf"), [], true, 0, true, false, false⟩) ∧
    handle ⟨lineEv reqline ++ ((hs.map lineEv).flatten ++ (lineEv [] ++ rest)), true, false⟩ =
      ⟨some (sendSimpleResponse 500 "OOM wordBuf"), [], true, 0, true, true, false⟩ := by
  have hline : readHeaderLine
      (lineEv reqline ++ ((hs.map lineEv).flatten ++ (lineEv [] ++ rest))) =
      (reqline, (hs.map lineEv).flatten ++ (lineEv [] ++ rest)) :=
    readHeaderLine_lineEv reqline _ 2000 hl
  have hhd := readHeaders_encoded hs rest 0 hhs
  rw [List.append_assoc] at hhd
  have hclv : hs.foldl (fun c h => updateCL h c) 0 = TOTAL_BYTES := hcl
  constructor
  · intro wb
    unfold handle
    simp only [hline]
    rw [if_neg (post_prefix_ne_nil _ hpost)]
    simp only [hpost, hpath, Bool.and_self, Bool.not_true, Bool.false_eq_true,
      if_false]
    rw [hhd]
    simp only [hclv, ne_eq, not_true_eq_false, if_false]
    simp
  · unfold handle
    simp only [hline]
    rw [if_neg (post_prefix_ne_nil _ hpost)]
    simp only [hpost, hpath, Bool.and_self, Bool.not_true, Bool.false_eq_true,
      if_false]
    rw [hhd]
    simp only [hclv, ne_eq, not_true_eq_false, if_false]
    simp

-- --- Pixel conversion lemmas ---

theorem toWords_take : ∀ (bs : List Nat) (n : Nat),
    (toWords bs).take n = toWords (bs.take (2 * n))
  | [], _ => by simp [toWords]
  | [x], n => by cases n <;> simp [toWords]
  | lo :: hi :: rest, 0 => by simp [toWords]
  | lo :: hi :: rest, n + 1 => by
    have ih := toWords_take rest n
    have h2 : 2 * (n + 1) = 2 * n + 1 + 1 := by ring
    rw [h2]
    simp only [toWords, List.take_succ_cons]
    rw [ih]

theorem toWords_drop : ∀ (bs : List Nat) (n : Nat),
    (toWords bs).drop n = toWords (bs.drop (2 * n))
  | [], _ => by simp [toWords]
  | [x], n => by cases n <;> simp [toWords]
  | lo :: hi :: rest, 0 => by simp [toWords]
  | lo :: hi :: rest, n + 1 => by
    have ih := toWords_drop rest n
    have h2 : 2 * (n + 1) = 2 * n + 1 + 1 := by ring
    rw [h2]
    simp only [toWords, List.drop_succ_cons]
    rw [ih]

theorem toWords_eq_range : ∀ (bs : List Nat),
    toWords bs = (List.range (bs.length / 2)).map
      (fun i => bs.getD (2 * i) 0 ||| ((bs.getD (2 * i + 1) 0) <<< 8))
  | [] => by simp [toWords]
  | [x] => by simp [toWords]
  | lo :: hi :: rest => by
    have ih := toWords_eq_range rest
    have hlen : (lo :: hi :: rest).length / 2 = rest.length / 2 + 1 := by
      simp only [List.length_cons]; omega
    rw [hlen]
    simp only [toWords, List.range_succ_eq_map, List.map_cons, List.map_map]
    congr 1
  termination_by bs => bs.length

theorem toWords_replicate0 : ∀ (n : Nat),
    toWords (List.replicate (2 * n) 0) = List.replicate n 0
  | 0 => by simp [toWords]
  | n + 1 => by
    have ih := toWords_replicate0 n
    have h2 : 2 * (n + 1) = 2 * n + 1 + 1 := by ring
    rw [h2, List.replicate_succ, List.replicate_succ]
    simp only [toWords, ih, List.replicate_succ]
    norm_num

theorem rowConvert (body : List Nat) (r : Nat)
    (h : WIDTH * 2 * (r + 1) ≤ body.length) :
    toWords ((body.drop (WIDTH * 2 * r)).take (WIDTH * 2)) = bodyRow body r := by
  have hseg : ((body.drop (WIDTH * 2 * r)).take (WIDTH * 2)).length = WIDTH * 2 := by
    rw [List.length_take, List.length_drop]
    simp only [WIDTH] at *
    omega
  rw [toWords_eq_range, hseg]
  have hw : WIDTH * 2 / 2 = WIDTH := by simp only [WIDTH]
  rw [hw]
  unfold bodyRow
  apply List.map_congr_left
  intro i hi
  rw [List.mem_range] at hi
  have hget : ∀ j, j < WIDTH * 2 →
      ((body.drop (WIDTH * 2 * r)).take (WIDTH * 2)).getD j 0 =
        body.getD (WIDTH * 2 * r + j) 0 := by
    intro j hj
    rw [List.getD_eq_getElem?_getD, List.getD_eq_getElem?_getD,
      List.getElem?_take, if_pos hj, List.getElem?_drop]
  rw [hget (2 * i) (by simp only [WIDTH] at *; omega),
    hget (2 * i + 1) (by simp only [WIDTH] at *; omega)]
  unfold bodyPixel
  have e1 : 2 * (WIDTH * r + i) = WIDTH * 2 * r + 2 * i := by ring
  have e2 : WIDTH * 2 * r + (2 * i + 1) = WIDTH * 2 * r + 2 * i + 1 := by ring
  rw [e1, e2]

theorem rowsDone_step (y len : Nat) (hy : y < HEIGHT)
    (hne : WIDTH * (min CHUNK_ROWS (HEIGHT - y)) * 2 ≤ len) :
    rowsDone y len = min CHUNK_ROWS (HEIGHT - y) +
      rowsDone (y + CHUNK_ROWS) (len - WIDTH * (min CHUNK_ROWS (HEIGHT - y)) * 2) := by
  rw [rowsDone]
  simp only [if_pos hy, if_pos hne]

theorem rowsDone_short (y len : Nat)
    (hne : ¬(WIDTH * (min CHUNK_ROWS (HEIGHT - y)) * 2 ≤ len)) :
    rowsDone y len = 0 := by
  rw [rowsDone]
  by_cases hy : y < HEIGHT
  · simp only [if_pos hy, if_neg hne]
  · simp only [if_neg hy]

theorem rowsDone_stop (y len : Nat) (hy : ¬(y < HEIGHT)) : rowsDone y len = 0 := by
  rw [rowsDone]
  simp only [if_neg hy]

theorem chunks_rows :
    ∀ (n y : Nat) (body : List Nat), HEIGHT - y = n →
      ((chunksFrom y body).map rowsOf).flatten =
        (List.range (rowsDone y body.length)).map
          (fun j => (0, y + j, WIDTH,
            toWords ((body.drop (WIDTH * 2 * j)).take (WIDTH * 2)))) := by
  intro n
  induction n using Nat.strong_induction_on with
  | _ n ih =>
    intro y body hn
    by_cases hy : y < HEIGHT
    · by_cases hne : WIDTH * (min CHUNK_ROWS (HEIGHT - y)) * 2 ≤ body.length
      · have hrec := ih (HEIGHT - (y + CHUNK_ROWS))
          (by simp only [HEIGHT, CHUNK_ROWS] at *; omega)
          (y + CHUNK_ROWS) (body.drop (WIDTH * (min CHUNK_ROWS (HEIGHT - y)) * 2)) rfl
        rw [List.length_drop] at hrec
        rw [chunksFrom_step y body hy hne, rowsDone_step y body.length hy hne]
        simp only [List.map_cons, List.flatten_cons]
        rw [List.range_add, List.map_append, List.map_map]
        congr 1
        · simp only [rowsOf]
          apply List.map_congr_left
          intro j hj
          rw [List.mem_range] at hj
          have hpix : ((toWords (body.take (WIDTH * (min CHUNK_ROWS (HEIGHT - y)) * 2))).drop
                (j * WIDTH)).take WIDTH =
              toWords ((body.drop (WIDTH * 2 * j)).take (WIDTH * 2)) := by
            rw [toWords_drop, toWords_take]
            have a1 : 2 * (j * WIDTH) = WIDTH * 2 * j := by ring
            rw [a1, List.drop_take, List.take_take]
            have a2 : (2 * WIDTH) ⊓ (WIDTH * (min CHUNK_ROWS (HEIGHT - y)) * 2 -
                WIDTH * 2 * j) = WIDTH * 2 := by
              simp only [WIDTH, CHUNK_ROWS] at *
              omega
            rw [a2]
          rw [hpix]
        · rw [hrec]
          by_cases hR : CHUNK_ROWS ≤ HEIGHT - y
          · have hRR : min CHUNK_ROWS (HEIGHT - y) = CHUNK_ROWS := Nat.min_eq_left hR
            rw [hRR]
            apply List.map_congr_left
            intro j hj
            simp only [Function.comp_apply]
            have a3 : y + (CHUNK_ROWS + j) = y + CHUNK_ROWS + j := by ring
            have a4 : (body.drop (WIDTH * CHUNK_ROWS * 2)).drop (WIDTH * 2 * j) =
                body.drop (WIDTH * 2 * (CHUNK_ROWS + j)) := by
              rw [List.drop_drop]
              have : WIDTH * CHUNK_ROWS * 2 + WIDTH * 2 * j =
                  WIDTH * 2 * (CHUNK_ROWS + j) := by ring
              rw [this]
            rw [a3, ← a4]
          · have hstop : ¬(y + CHUNK_ROWS < HEIGHT) := by
              simp only [CHUNK_ROWS, HEIGHT] at *; omega
            rw [rowsDone_stop _ _ hstop]
            simp
      · rw [chunksFrom_short y body hne, rowsDone_short y body.length hne]
        simp
    · rw [chunksFrom_stop y body hy, rowsDone_stop y body.length hy]
      simp

theorem rowsDone_le :
    ∀ (n y len : Nat), HEIGHT - y = n → WIDTH * 2 * rowsDone y len ≤ len := by
  intro n
  induction n using Nat.strong_induction_on with
  | _ n ih =>
    intro y len hn
    by_cases hy : y < HEIGHT
    · by_cases hne : WIDTH * (min CHUNK_ROWS (HEIGHT - y)) * 2 ≤ len
      · rw [rowsDone_step y len hy hne]
        have hrec := ih (HEIGHT - (y + CHUNK_ROWS))
          (by simp only [HEIGHT, CHUNK_ROWS] at *; omega)
          (y + CHUNK_ROWS) (len - WIDTH * (min CHUNK_ROWS (HEIGHT - y)) * 2) rfl
        simp only [WIDTH, CHUNK_ROWS] at *
        omega
      · rw [rowsDone_short y len hne]; omega
    · rw [rowsDone_stop y len hy]; omega

theorem rowsDone_exact :
    ∀ (n y len : Nat), HEIGHT - y = n → len = WIDTH * 2 * (HEIGHT - y) →
      rowsDone y len = HEIGHT - y := by
  intro n
  induction n using Nat.strong_induction_on with
  | _ n ih =>
    intro y len hn hlen
    by_cases hy : y < HEIGHT
    · have hne : WIDTH * (min CHUNK_ROWS (HEIGHT - y)) * 2 ≤ len := by
        simp only [WIDTH, CHUNK_ROWS, HEIGHT] at *; omega
      rw [rowsDone_step y len hy hne]
      have hrec := ih (HEIGHT - (y + CHUNK_ROWS))
        (by simp only [HEIGHT, CHUNK_ROWS] at *; omega)
        (y + CHUNK_ROWS) (len - WIDTH * (min CHUNK_ROWS (HEIGHT - y)) * 2) rfl
        (by simp only [WIDTH, CHUNK_ROWS, HEIGHT] at *; omega)
      rw [hrec]
      simp only [WIDTH, CHUNK_ROWS, HEIGHT] at *
      omega
    · rw [rowsDone_stop y len hy]
      simp only [HEIGHT] at *
      omega

theorem chunks_geom :
    ∀ (fuel y : Nat) (body : List Nat), HEIGHT ≤ y + CHUNK_ROWS * fuel →
      body.length = WIDTH * 2 * (HEIGHT - y) →
      (chunksFrom y body).map (fun p => (p.y, p.h, p.w * p.h * 2)) =
        geomList fuel y := by
  intro fuel
  induction fuel with
  | zero =>
    intro y body hf hlen
    have hy : ¬(y < HEIGHT) := by omega
    rw [chunksFrom_stop y body hy]
    simp [geomList]
  | succ fuel ih =>
    intro y body hf hlen
    by_cases hy : y < HEIGHT
    · have hne : WIDTH * (min CHUNK_ROWS (HEIGHT - y)) * 2 ≤ body.length := by
        simp only [WIDTH, CHUNK_ROWS, HEIGHT] at *; omega
      rw [chunksFrom_step y body hy hne]
      simp only [geomList, if_pos hy, List.map_cons]
      congr 1
      exact ih (y + CHUNK_ROWS)
        (body.drop (WIDTH * (min CHUNK_ROWS (HEIGHT - y)) * 2))
        (by simp only [CHUNK_ROWS] at *; omega)
        (by rw [List.length_drop]; simp only [WIDTH, CHUNK_ROWS, HEIGHT] at *; omega)
    · rw [chunksFrom_stop y body hy]
      simp [geomList, hy]

theorem geomList_eval : geomList 34 0 =
    (List.range 33).map (fun c => (4 * c, 4, 1920)) ++ [(132, 3, 1440)] := by
  decide

-- --- Push geometry invariant ---

/-- The geometric well-formedness of a display push: x-origin 0, full width,
between 1 and `CHUNK_ROWS` rows, within the vertical bounds, at a cursor that
is a multiple of `CHUNK_ROWS`, with exactly `min CHUNK_ROWS (HEIGHT - y)`
rows. -/
def PushInv (p : Push) : Prop :=
  p.x = 0 ∧ p.w = WIDTH ∧ 1 ≤ p.h ∧ p.h ≤ CHUNK_ROWS ∧ p.y + p.h ≤ HEIGHT ∧
    CHUNK_ROWS ∣ p.y ∧ p.h = min CHUNK_ROWS (HEIGHT - p.y)

instance (p : Push) : Decidable (PushInv p) := by
  unfold PushInv
  infer_instance

theorem transfer_inv :
    ∀ (n : Nat) (evs : List Ev) (y : Nat) (pushes : List Push) (bytes : Nat),
      HEIGHT - y = n → CHUNK_ROWS ∣ y →
      (∀ p ∈ pushes, PushInv p) →
      ∀ p ∈ (transferLoop evs y pushes bytes).pushes, PushInv p := by
  intro n
  induction n using Nat.strong_induction_on with
  | _ n ih =>
    intro evs y pushes bytes hn hdvd hinv
    by_cases hy : y < HEIGHT
    · rw [transferLoop, if_pos hy]
      simp only
      by_cases hr : (readFully (WIDTH * (min CHUNK_ROWS (HEIGHT - y)) * 2)
          BODY_TIMEOUT_MS evs).1.length = WIDTH * (min CHUNK_ROWS (HEIGHT - y)) * 2
      · rw [if_pos hr]
        apply ih (HEIGHT - (y + CHUNK_ROWS))
          (by simp only [HEIGHT, CHUNK_ROWS] at *; omega)
          _ (y + CHUNK_ROWS) _ _ rfl
          (by exact Dvd.dvd.add hdvd (dvd_refl CHUNK_ROWS))
        intro p hp
        rcases List.mem_append.mp hp with hmem | hmem
        · exact hinv p hmem
        · rw [List.mem_singleton] at hmem
          subst hmem
          refine ⟨rfl, rfl, ?_, ?_, ?_, hdvd, rfl⟩
          · simp only [CHUNK_ROWS, HEIGHT] at *; omega
          · simp only [CHUNK_ROWS, HEIGHT] at *; omega
          · simp only [CHUNK_ROWS, HEIGHT] at *; omega
      · rw [if_neg hr]
        exact hinv
    · rw [transferLoop, if_neg hy]
      exact hinv

theorem handle_pushes_inv (inp : ClientInput) :
    ∀ p ∈ (handle inp).pushes, PushInv p := by
  unfold handle
  simp only
  split
  · simp
  · split
    · simp
    · split
      · simp
      · split
        · simp
        · split
          · simp
          · exact transfer_inv HEIGHT _ 0 [] 0 rfl ⟨0, rfl⟩ (by simp)

instance (l : List Nat) : Decidable (LineOK l) := by
  unfold LineOK
  infer_instance

instance (hs : List (List Nat)) : Decidable (HeadersOK hs) := by
  unfold HeadersOK
  infer_instance

/-- The canonical valid request line, used by concrete witnesses. -/
def REQ_LINE : List Nat := strBytes "POST /update-image HTTP/1.1"

/-- The canonical valid `Content-Length` header, used by concrete witnesses. -/
def CL_HEADER : List Nat := strBytes "Content-Length: 64800"

-- --- The claims ---

/-- Claim C1: for every upload whose request line matches the recognized
`POST ` + `/update-image` pair, whose declared Content-Length equals 64800,
and whose 64800 body bytes all arrive in time (modelled: the stream carries
the full body), the response is 200 `OK` and the rows drawn on the display
are exactly rows 0..134, in order, each pushed exactly once at its own row
index and x-origin 0, each equal to the corresponding row of the body
interpreted as row-major little-endian 16-bit pixels
(`bodyPixel body i = body[2i] ||| body[2i+1] <<< 8`). -/
theorem claim1_valid_upload (reqline : List Nat) (hs : List (List Nat))
    (body : List Nat) (tail : List Ev)
    (hl : LineOK reqline)
    (hpost : POST_TOKEN.isPrefixOf (trimWS reqline) = true)
    (hpath : listContains (trimWS reqline) PATH_TOKEN = true)
    (hhs : HeadersOK hs)
    (hcl : contentLengthOf hs = TOTAL_BYTES)
    (hblen : body.length = TOTAL_BYTES)
    (hbb : ∀ b ∈ body, b < 256) :
    (handle ⟨encodeRequest reqline hs body tail, true, true⟩).response =
        some ("HTTP/1.1 200 OK", "OK") ∧
      (((handle ⟨encodeRequest reqline hs body tail, true, true⟩).pushes.map
          rowsOf).flatten =
        (List.range HEIGHT).map (fun r => (0, r, WIDTH, bodyRow body r))) := by
  have hrun := run_ok reqline hs body tail hl hpost hpath hhs hcl hblen hbb
  rw [hrun]
  constructor
  · rfl
  · show ((chunksFrom 0 body).map rowsOf).flatten = _
    rw [chunks_rows HEIGHT 0 body rfl]
    have hrd : rowsDone 0 body.length = HEIGHT - 0 :=
      rowsDone_exact HEIGHT 0 body.length rfl
        (by rw [hblen]; simp [TOTAL_BYTES, WIDTH, HEIGHT])
    rw [hrd, Nat.sub_zero]
    apply List.map_congr_left
    intro j hj
    rw [List.mem_range] at hj
    rw [rowConvert body j
      (by rw [hblen]; simp only [TOTAL_BYTES, WIDTH, HEIGHT] at *; omega)]
    simp

/-- Witness for C1: the all-zero 64800-byte image uploaded with the canonical
request line and header. -/
theorem claim1_witness :
    (List.replicate TOTAL_BYTES 0).length = TOTAL_BYTES ∧
    contentLengthOf [CL_HEADER] = TOTAL_BYTES ∧
    ((handle ⟨encodeRequest REQ_LINE [CL_HEADER] (List.replicate TOTAL_BYTES 0) [],
        true, true⟩).response = some ("HTTP/1.1 200 OK", "OK") ∧
      (((handle ⟨encodeRequest REQ_LINE [CL_HEADER] (List.replicate TOTAL_BYTES 0) [],
          true, true⟩).pushes.map rowsOf).flatten =
        (List.range HEIGHT).map
          (fun r => (0, r, WIDTH, bodyRow (List.replicate TOTAL_BYTES 0) r)))) :=
  ⟨by simp, by decide,
    claim1_valid_upload REQ_LINE [CL_HEADER] (List.replicate TOTAL_BYTES 0) []
      (by decide) (by decide) (by decide) (by decide) (by decide)
      (by simp)
      (fun b hb => by rw [List.eq_of_mem_replicate hb]; omega)⟩

/-- Counterexample to claim C2 as stated: on a chunk timeout the status line
written to the client is `HTTP/1.1 500 Internal Server Error`, which does not
name 408 — `sendSimpleResponse` has no 408 branch, so code 408 falls through
to the final `else`.  Concretely: a valid request whose body never arrives. -/
theorem claim2_counterexample :
    (handle ⟨encodeRequest REQ_LINE [CL_HEADER] [] [], true, true⟩).response =
        some ("HTTP/1.1 500 Internal Server Error", "Timeout receiving body") ∧
      strHas "HTTP/1.1 500 Internal Server Error" "408" = false ∧
      strHas "HTTP/1.1 500 Internal Server Error" "500" = true := by
  refine ⟨?_, by decide, by decide⟩
  have h := run_stall REQ_LINE [CL_HEADER] []
    (by decide) (by decide) (by decide) (by decide) (by decide)
    (by decide) (by simp)
  rw [h]
  rfl

/-- Claim C2 (amended): whenever a body chunk read fails to complete within
the per-chunk deadline, the response written to the client has the
`HTTP/1.1 500 Internal Server Error` status line (the response writer has no
mapping for the internal 408 code) with body `Timeout receiving body`. -/
theorem claim2_timeout_response (reqline : List Nat) (hs : List (List Nat))
    (body : List Nat)
    (hl : LineOK reqline)
    (hpost : POST_TOKEN.isPrefixOf (trimWS reqline) = true)
    (hpath : listContains (trimWS reqline) PATH_TOKEN = true)
    (hhs : HeadersOK hs)
    (hcl : contentLengthOf hs = TOTAL_BYTES)
    (hblen : body.length < TOTAL_BYTES)
    (hbb : ∀ b ∈ body, b < 256) :
    (handle ⟨encodeRequest reqline hs body [], true, true⟩).response =
      some ("HTTP/1.1 500 Internal Server Error", "Timeout receiving body") := by
  rw [run_stall reqline hs body hl hpost hpath hhs hcl hblen hbb]
  rfl

/-- Witness for the amended C2: a valid request delivering only 100 of the
64800 body bytes. -/
theorem claim2_witness :
    (List.replicate 100 0).length < TOTAL_BYTES ∧
    (handle ⟨encodeRequest REQ_LINE [CL_HEADER] (List.replicate 100 0) [],
        true, true⟩).response =
      some ("HTTP/1.1 500 Internal Server Error", "Timeout receiving body") :=
  ⟨by decide,
    claim2_timeout_response REQ_LINE [CL_HEADER] (List.replicate 100 0)
      (by decide) (by decide) (by decide) (by decide) (by decide) (by decide)
      (fun b hb => by rw [List.eq_of_mem_replicate hb]; omega)⟩

/-- Counterexample to claim C3 as stated: in the concrete fully successful
transfer, there are 33 full chunks of 4 rows — not 34 — and a full chunk
carries 240*4*2 = 1920 wire bytes — not 3840; no chunk carries 3840 or 2880
bytes, and the total number of chunks is 34, not 35. -/
theorem claim3_counterexample :
    ((handle ⟨encodeRequest REQ_LINE [CL_HEADER] (List.replicate TOTAL_BYTES 0) [],
          true, true⟩).pushes.countP (fun p => p.h == 4) = 33) ∧
      ¬((handle ⟨encodeRequest REQ_LINE [CL_HEADER] (List.replicate TOTAL_BYTES 0) [],
          true, true⟩).pushes.countP (fun p => p.h == 4) = 34) ∧
      ((handle ⟨encodeRequest REQ_LINE [CL_HEADER] (List.replicate TOTAL_BYTES 0) [],
          true, true⟩).pushes.length = 34) ∧
      (∀ p ∈ (handle ⟨encodeRequest REQ_LINE [CL_HEADER] (List.replicate TOTAL_BYTES 0) [],
          true, true⟩).pushes, p.w * p.h * 2 ≠ 3840 ∧ p.w * p.h * 2 ≠ 2880) := by
  have hrun := run_ok REQ_LINE [CL_HEADER] (List.replicate TOTAL_BYTES 0) []
    (by decide) (by decide) (by decide) (by decide) (by decide)
    (by simp)
    (fun b hb => by rw [List.eq_of_mem_replicate hb]; omega)
  have hgeom := chunks_geom 34 0 (List.replicate TOTAL_BYTES 0)
    (by decide) (by rw [List.length_replicate]; decide)
  rw [geomList_eval] at hgeom
  have hcount : (chunksFrom 0 (List.replicate TOTAL_BYTES 0)).countP
      (fun p => p.h == 4) =
      (((List.range 33).map (fun c => (4 * c, 4, 1920)) ++ [(132, 3, 1440)]).countP
        (fun t : Nat × Nat × Nat => t.2.1 == 4)) := by
    rw [← hgeom, List.countP_map]
    rfl
  have hlen : (chunksFrom 0 (List.replicate TOTAL_BYTES 0)).length =
      (((List.range 33).map (fun c => (4 * c, 4, 1920)) ++ [(132, 3, 1440)])).length := by
    rw [← hgeom, List.length_map]
  refine ⟨?_, ?_, ?_, ?_⟩
  · rw [hrun]
    simp only
    rw [hcount]
    decide
  · rw [hrun]
    simp only
    rw [hcount]
    decide
  · rw [hrun]
    simp only
    rw [hlen]
    decide
  · rw [hrun]
    simp only
    intro p hp
    have hmem : (p.y, p.h, p.w * p.h * 2) ∈
        ((List.range 33).map (fun c => (4 * c, 4, 1920)) ++ [(132, 3, 1440)]) := by
      rw [← hgeom]
      exact List.mem_map_of_mem (fun p => (p.y, p.h, p.w * p.h * 2)) hp
    have hval : ∀ t : Nat × Nat × Nat,
        t ∈ ((List.range 33).map (fun c => (4 * c, 4, 1920)) ++
          [((132 : Nat), (3 : Nat), (1440 : Nat))]) →
        t.2.2 = 1920 ∨ t.2.2 = 1440 := by
      decide
    have := hval _ hmem
    simp only at this
    omega

/-- Claim C3 (amended): with width 240, height 135, chunk_row_count 4, a
fully successful transfer performs 33 full chunks of 4 rows (1920 wire bytes
each) plus 1 final chunk of 3 rows (1440 bytes) — 34 chunks in all — it
consumes 64800 body bytes in total, and it ends with the 200 OK response. -/
theorem claim3_chunk_schedule (reqline : List Nat) (hs : List (List Nat))
    (body : List Nat) (tail : List Ev)
    (hl : LineOK reqline)
    (hpost : POST_TOKEN.isPrefixOf (trimWS reqline) = true)
    (hpath : listContains (trimWS reqline) PATH_TOKEN = true)
    (hhs : HeadersOK hs)
    (hcl : contentLengthOf hs = TOTAL_BYTES)
    (hblen : body.length = TOTAL_BYTES)
    (hbb : ∀ b ∈ body, b < 256) :
    (handle ⟨encodeRequest reqline hs body tail, true, true⟩).response =
        some ("HTTP/1.1 200 OK", "OK") ∧
      ((handle ⟨encodeRequest reqline hs body tail, true, true⟩).pushes.map
          (fun p => (p.y, p.h, p.w * p.h * 2))) =
        (List.range 33).map (fun c => (4 * c, 4, 1920)) ++ [(132, 3, 1440)] ∧
      (((handle ⟨encodeRequest reqline hs body tail, true, true⟩).pushes.map
          (fun p => p.w * p.h * 2)).sum = TOTAL_BYTES) ∧
      (handle ⟨encodeRequest reqline hs body tail, true, true⟩).bodyBytesRead =
        TOTAL_BYTES := by
  have hrun := run_ok reqline hs body tail hl hpost hpath hhs hcl hblen hbb
  have hgeom := chunks_geom 34 0 body (by decide) (by rw [hblen]; decide)
  rw [geomList_eval] at hgeom
  refine ⟨?_, ?_, ?_, ?_⟩
  · rw [hrun]
    rfl
  · rw [hrun]
    exact hgeom
  · rw [hrun]
    show ((chunksFrom 0 body).map (fun p => p.w * p.h * 2)).sum = TOTAL_BYTES
    have hsum : ((chunksFrom 0 body).map (fun p => p.w * p.h * 2)).sum =
        ((((List.range 33).map (fun c => (4 * c, 4, 1920)) ++
            [((132 : Nat), (3 : Nat), (1440 : Nat))]).map
          (fun t : Nat × Nat × Nat => t.2.2)).sum) := by
      rw [← hgeom, List.map_map]
      rfl
    rw [hsum]
    decide
  · rw [hrun]
    exact hblen

/-- Witness for the amended C3: the all-zero full-size upload. -/
theorem claim3_witness :
    (List.replicate TOTAL_BYTES 0).length = TOTAL_BYTES ∧
    ((handle ⟨encodeRequest REQ_LINE [CL_HEADER] (List.replicate TOTAL_BYTES 0) [],
        true, true⟩).pushes.map (fun p => (p.y, p.h, p.w * p.h * 2))) =
      (List.range 33).map (fun c => (4 * c, 4, 1920)) ++ [(132, 3, 1440)] :=
  ⟨by simp,
    (claim3_chunk_schedule REQ_LINE [CL_HEADER] (List.replicate TOTAL_BYTES 0) []
      (by decide) (by decide) (by decide) (by decide) (by decide)
      (by simp)
      (fun b hb => by rw [List.eq_of_mem_replicate hb]; omega)).2.1⟩

/-- Claim C4: for every request with the recognized method/path whose parsed
declared length differs from 64800 — including 0 when the header is missing
or non-numeric, and values larger than 64800 — the response is 400 with a
body naming the expected size and the received value, and no body bytes are
read from the connection (`bodyBytesRead = 0`, no pushes). -/
theorem claim4_bad_length (reqline : List Nat) (hs : List (List Nat))
    (rest : List Ev) (bb wb : Bool)
    (hl : LineOK reqline)
    (hpost : POST_TOKEN.isPrefixOf (trimWS reqline) = true)
    (hpath : listContains (trimWS reqline) PATH_TOKEN = true)
    (hhs : HeadersOK hs)
    (hne : contentLengthOf hs ≠ TOTAL_BYTES) :
    handle ⟨lineEv reqline ++ ((hs.map lineEv).flatten ++ (lineEv [] ++ rest)), bb, wb⟩ =
      ⟨some ("HTTP/1.1 400 Bad Request",
          "Expected " ++ toString TOTAL_BYTES ++ " bytes, got " ++
            toString (contentLengthOf hs)),
        [], true, 0, true, false, false⟩ := by
  rw [run_bad_length reqline hs rest bb wb hl hpost hpath hhs hne]
  rfl

/-- Witness for C4: a request declaring `Content-Length: 100`; the body
message names 64800 and 100, and zero body bytes are consumed. -/
theorem claim4_witness :
    contentLengthOf [strBytes "Content-Length: 100"] ≠ TOTAL_BYTES ∧
    handle ⟨lineEv REQ_LINE ++
        (([strBytes "Content-Length: 100"].map lineEv).flatten ++ (lineEv [] ++ [])),
        true, true⟩ =
      ⟨some ("HTTP/1.1 400 Bad Request",
          "Expected " ++ toString TOTAL_BYTES ++ " bytes, got " ++
            toString (contentLengthOf [strBytes "Content-Length: 100"])),
        [], true, 0, true, false, false⟩ :=
  ⟨by decide,
    claim4_bad_length REQ_LINE [strBytes "Content-Length: 100"] [] true true
      (by decide) (by decide) (by decide) (by decide) (by decide)⟩

/-- Claim C6: for every request whose request line does not both start with
`POST ` and contain `/update-image`, the response is 404 `Not found`, and the
header loop — hence content-length parsing — never runs
(`headersParsed = false`). -/
theorem claim6_not_found (reqline : List Nat) (rest : List Ev) (bb wb : Bool)
    (hl : LineOK reqline) (ht : trimWS reqline ≠ [])
    (hno : ¬(POST_TOKEN.isPrefixOf (trimWS reqline) = true ∧
             listContains (trimWS reqline) PATH_TOKEN = true)) :
    handle ⟨lineEv reqline ++ rest, bb, wb⟩ =
      ⟨some ("HTTP/1.1 404 Not Found", "Not found"), [], false, 0, true,
        false, false⟩ := by
  rw [run_not_found reqline rest bb wb hl ht hno]
  rfl

/-- Witness for C6: a `GET /` request line. -/
theorem claim6_witness :
    trimWS (strBytes "GET / HTTP/1.1") ≠ [] ∧
    handle ⟨lineEv (strBytes "GET / HTTP/1.1") ++ [], true, true⟩ =
      ⟨some ("HTTP/1.1 404 Not Found", "Not found"), [], false, 0, true,
        false, false⟩ :=
  ⟨by decide,
    claim6_not_found (strBytes "GET / HTTP/1.1") [] true true
      (by decide) (by decide) (by decide)⟩

/-- Claim C7: if allocation of the wire-form byte buffer fails, the response
is 500 `OOM byteBuf` with no body bytes read and nothing yet to free; if the
byte buffer allocates but the word buffer fails, the response is 500
`OOM wordBuf`, the already-allocated byte buffer is freed
(`byteBufFreed = true`), no body bytes are read, and the connection is
closed in both cases. -/
theorem claim7_alloc_failure (reqline : List Nat) (hs : List (List Nat))
    (rest : List Ev)
    (hl : LineOK reqline)
    (hpost : POST_TOKEN.isPrefixOf (trimWS reqline) = true)
    (hpath : listContains (trimWS reqline) PATH_TOKEN = true)
    (hhs : HeadersOK hs)
    (hcl : contentLengthOf hs = TOTAL_BYTES) :
    (∀ wb : Bool,
      handle ⟨lineEv reqline ++ ((hs.map lineEv).flatten ++ (lineEv [] ++ rest)),
          false, wb⟩ =
        ⟨some ("HTTP/1.1 500 Internal Server Error", "OOM byteBuf"), [], true, 0,
          true, false, false⟩) ∧
    handle ⟨lineEv reqline ++ ((hs.map lineEv).flatten ++ (lineEv [] ++ rest)),
        true, false⟩ =
      ⟨some ("HTTP/1.1 500 Internal Server Error", "OOM wordBuf"), [], true, 0,
        true, true, false⟩ := by
  have h := run_oom reqline hs rest hl hpost hpath hhs hcl
  exact ⟨fun wb => by rw [(h.1) wb]; rfl, by rw [h.2]; rfl⟩

/-- Witness for C7: the canonical valid request with each allocation failing
in turn. -/
theorem claim7_witness :
    contentLengthOf [CL_HEADER] = TOTAL_BYTES ∧
    handle ⟨lineEv REQ_LINE ++ (([CL_HEADER].map lineEv).flatten ++ (lineEv [] ++ [])),
        false, true⟩ =
      ⟨some ("HTTP/1.1 500 Internal Server Error", "OOM byteBuf"), [], true, 0,
        true, false, false⟩ ∧
    handle ⟨lineEv REQ_LINE ++ (([CL_HEADER].map lineEv).flatten ++ (lineEv [] ++ [])),
        true, false⟩ =
      ⟨some ("HTTP/1.1 500 Internal Server Error", "OOM wordBuf"), [], true, 0,
        true, true, false⟩ :=
  ⟨by decide,
    (claim7_alloc_failure REQ_LINE [CL_HEADER] []
      (by decide) (by decide) (by decide) (by decide) (by decide)).1 true,
    (claim7_alloc_failure REQ_LINE [CL_HEADER] []
      (by decide) (by decide) (by decide) (by decide) (by decide)).2⟩

/-- Claim C9: if the request line reads back empty — the client sent nothing
before the line timeout, or only whitespace — the connection is closed with
no HTTP response written at all (`response = none`): in particular no 404 is
sent even though the empty line does not match the recognized pair. -/
theorem claim9_empty_request (reqline : List Nat) (rest : List Ev) (bb wb : Bool)
    (hl : LineOK reqline) (ht : trimWS reqline = []) :
    handle ⟨lineEv reqline ++ rest, bb, wb⟩ =
        ⟨none, [], false, 0, true, false, false⟩ ∧
      handle ⟨[], bb, wb⟩ = ⟨none, [], false, 0, true, false, false⟩ := by
  constructor
  · exact run_empty_line reqline rest bb wb hl ht
  · unfold handle
    simp [readHeaderLine, readHeaderLineAux, trimWS, stripCR]

/-- Witness for C9: a bare CRLF request line (reads back as the empty line). -/
theorem claim9_witness :
    trimWS [] = [] ∧
    handle ⟨lineEv [] ++ [], true, true⟩ = ⟨none, [], false, 0, true, false, false⟩ :=
  ⟨by decide, (claim9_empty_request [] [] true true (by decide) (by decide)).1⟩

/-- Claim C5: if a chunk read stalls (the stream ends before the full body
arrives), no pixel of the failed chunk is pushed: the pushes are exactly the
fully received chunks (`chunksFrom`), the rows drawn are precisely rows
`0 .. rowsDone-1` with their correct pixel contents, every drawn row lies
within the bytes actually received, the cursor never reaches `HEIGHT`, and
the loop aborts with the timeout response. -/
theorem claim5_stall_rows (reqline : List Nat) (hs : List (List Nat))
    (body : List Nat)
    (hl : LineOK reqline)
    (hpost : POST_TOKEN.isPrefixOf (trimWS reqline) = true)
    (hpath : listContains (trimWS reqline) PATH_TOKEN = true)
    (hhs : HeadersOK hs)
    (hcl : contentLengthOf hs = TOTAL_BYTES)
    (hblen : body.length < TOTAL_BYTES)
    (hbb : ∀ b ∈ body, b < 256) :
    (handle ⟨encodeRequest reqline hs body [], true, true⟩).pushes =
        chunksFrom 0 body ∧
      (((handle ⟨encodeRequest reqline hs body [], true, true⟩).pushes.map
          rowsOf).flatten =
        (List.range (rowsDone 0 body.length)).map
          (fun j => (0, j, WIDTH, bodyRow body j))) ∧
      WIDTH * 2 * rowsDone 0 body.length ≤ body.length ∧
      rowsDone 0 body.length < HEIGHT ∧
      (handle ⟨encodeRequest reqline hs body [], true, true⟩).response =
        some ("HTTP/1.1 500 Internal Server Error", "Timeout receiving body") := by
  have hrun := run_stall reqline hs body hl hpost hpath hhs hcl hblen hbb
  have hle := rowsDone_le HEIGHT 0 body.length rfl
  refine ⟨by rw [hrun], ?_, hle, ?_, by rw [hrun]; rfl⟩
  · rw [hrun]
    show ((chunksFrom 0 body).map rowsOf).flatten = _
    rw [chunks_rows HEIGHT 0 body rfl]
    apply List.map_congr_left
    intro j hj
    rw [List.mem_range] at hj
    rw [rowConvert body j (by simp only [WIDTH] at *; omega)]
    simp
  · simp only [WIDTH, HEIGHT, TOTAL_BYTES] at *
    omega

/-- Witness for C5: a valid request delivering exactly one full chunk
(1920 bytes) and then stalling. -/
theorem claim5_witness :
    (List.replicate 1920 0).length < TOTAL_BYTES ∧
    ((handle ⟨encodeRequest REQ_LINE [CL_HEADER] (List.replicate 1920 0) [],
        true, true⟩).pushes = chunksFrom 0 (List.replicate 1920 0) ∧
      (((handle ⟨encodeRequest REQ_LINE [CL_HEADER] (List.replicate 1920 0) [],
          true, true⟩).pushes.map rowsOf).flatten =
        (List.range (rowsDone 0 (List.replicate 1920 0).length)).map
          (fun j => (0, j, WIDTH, bodyRow (List.replicate 1920 0) j))) ∧
      WIDTH * 2 * rowsDone 0 (List.replicate 1920 0).length ≤
        (List.replicate 1920 0).length ∧
      rowsDone 0 (List.replicate 1920 0).length < HEIGHT ∧
      (handle ⟨encodeRequest REQ_LINE [CL_HEADER] (List.replicate 1920 0) [],
          true, true⟩).response =
        some ("HTTP/1.1 500 Internal Server Error", "Timeout receiving body")) :=
  ⟨by rw [List.length_replicate]; decide,
    claim5_stall_rows REQ_LINE [CL_HEADER] (List.replicate 1920 0)
      (by decide) (by decide) (by decide) (by decide) (by decide)
      (by rw [List.length_replicate]; decide)
      (fun b hb => by rw [List.eq_of_mem_replicate hb]; omega)⟩

/-- Claim C8: `readHeaderLine` accumulates bytes until a line feed, strips a
single trailing carriage return, and returns the accumulated text; if the
timeout elapses before a line feed arrives — modelled by the stream running
out of data, or by `T + 1` dataless poll ticks — it returns whatever was
accumulated so far, likewise CR-trimmed, through the same return path rather
than a distinct timeout error.  (The default timeout argument of
`readHeaderLine` is 2000 ms.) -/
theorem claim8_read_line (l : List Nat) (rest : List Ev) (T : Nat)
    (hl : LineOK l) :
    readHeaderLine (l.map Ev.byte ++ Ev.byte 10 :: rest) T = (stripCR l, rest) ∧
      readHeaderLine (l.map Ev.byte) T = (stripCR l, []) ∧
      readHeaderLine (l.map Ev.byte ++ List.replicate (T + 1) Ev.tick) T =
        (stripCR l, []) ∧
      stripCR (l ++ [13]) = l ∧
      (l.getLast? ≠ some 13 → stripCR l = l) := by
  refine ⟨?_, readHeaderLine_exhaust l T hl, ?_, stripCR_concat13 l,
    stripCR_no13 l⟩
  · unfold readHeaderLine
    rw [readHeaderLineAux_bytes T l (Ev.byte 10 :: rest) 0 [] hl]
    simp [readHeaderLineAux]
  · unfold readHeaderLine
    rw [readHeaderLineAux_bytes T l (List.replicate (T + 1) Ev.tick) 0 [] hl]
    exact readHeaderLineAux_ticks T (T + 1) 0 l (by omega)

/-- Witness for C8: the line `Hi` followed by a trailing CR, with a 5 ms
timeout. -/
theorem claim8_witness :
    LineOK [72, 105, 13] ∧
    readHeaderLine ([72, 105, 13].map Ev.byte ++ Ev.byte 10 :: []) 5 =
        (stripCR [72, 105, 13], []) ∧
      readHeaderLine ([72, 105, 13].map Ev.byte) 5 = (stripCR [72, 105, 13], []) ∧
      stripCR ([72, 105, 13] ++ [13]) = [72, 105, 13] :=
  ⟨by decide,
    (claim8_read_line [72, 105, 13] [] 5 (by decide)).1,
    (claim8_read_line [72, 105, 13] [] 5 (by decide)).2.1,
    (claim8_read_line [72, 105, 13] [] 5 (by decide)).2.2.2.1⟩

/-- Claim C10: every display push performed during body transfer stays in
bounds: x-origin 0, width 240, row count between 1 and 4 with
`y + rowsThis ≤ 135`, the cursor `y` a multiple of 4 strictly below 135, and
`rowsThis = min 4 (135 - y)` — for every client input whatsoever. -/
theorem claim10_push_bounds (inp : ClientInput) (p : Push)
    (hp : p ∈ (handle inp).pushes) :
    p.x = 0 ∧ p.w = WIDTH ∧ 1 ≤ p.h ∧ p.h ≤ CHUNK_ROWS ∧ p.y + p.h ≤ HEIGHT ∧
      CHUNK_ROWS ∣ p.y ∧ p.h = min CHUNK_ROWS (HEIGHT - p.y) := by
  have h := handle_pushes_inv inp p hp
  unfold PushInv at h
  exact h

/-- The single push performed by the one-chunk stalled upload, used as the
C10 witness. -/
def P0 : Push := ⟨0, 0, WIDTH, 4, List.replicate 960 0⟩

/-- Witness for C10: the first chunk pushed by a request that delivers 1920
body bytes satisfies all the stated bounds. -/
theorem claim10_witness :
    (P0 ∈ (handle ⟨encodeRequest REQ_LINE [CL_HEADER] (List.replicate 1920 0) [],
        true, true⟩).pushes) ∧
      (P0.x = 0 ∧ P0.w = WIDTH ∧ 1 ≤ P0.h ∧ P0.h ≤ CHUNK_ROWS ∧
        P0.y + P0.h ≤ HEIGHT ∧ CHUNK_ROWS ∣ P0.y ∧
        P0.h = min CHUNK_ROWS (HEIGHT - P0.y)) := by
  have hrun := run_stall REQ_LINE [CL_HEADER] (List.replicate 1920 0)
    (by decide) (by decide) (by decide) (by decide) (by decide)
    (by rw [List.length_replicate]; decide)
    (fun b hb => by rw [List.eq_of_mem_replicate hb]; omega)
  have hne : WIDTH * (min CHUNK_ROWS (HEIGHT - 0)) * 2 ≤
      (List.replicate 1920 (0 : Nat)).length := by
    rw [List.length_replicate]; decide
  have hstep := chunksFrom_step 0 (List.replicate 1920 0) (by decide) hne
  have he1 : WIDTH * (min CHUNK_ROWS (HEIGHT - 0)) * 2 = 1920 := by decide
  rw [he1] at hstep
  have htake : (List.replicate 1920 (0 : Nat)).take 1920 = List.replicate 1920 0 := by
    rw [List.take_replicate]
    norm_num
  have hdrop : (List.replicate 1920 (0 : Nat)).drop 1920 = [] := by
    apply List.drop_eq_nil_of_le
    rw [List.length_replicate]
  have hwords : toWords (List.replicate 1920 (0 : Nat)) = List.replicate 960 0 := by
    rw [show (1920 : Nat) = 2 * 960 by norm_num]
    exact toWords_replicate0 960
  have hmin : min CHUNK_ROWS (HEIGHT - 0) = 4 := by decide
  rw [htake, hwords, hdrop, hmin] at hstep
  have hrest : chunksFrom (0 + CHUNK_ROWS) ([] : List Nat) = [] := by
    apply chunksFrom_short
    decide
  rw [hrest] at hstep
  have hmem : P0 ∈ (handle ⟨encodeRequest REQ_LINE [CL_HEADER]
      (List.replicate 1920 0) [], true, true⟩).pushes := by
    rw [hrun]
    show _ ∈ chunksFrom 0 (List.replicate 1920 0)
    rw [hstep]
    exact List.mem_singleton.mpr rfl
  exact ⟨hmem, claim10_push_bounds _ P0 hmem⟩
